import Mathlib

/-!
Verification of the persistence layer of the recipe-book-backend server.

This file gives a shallow embedding, in Lean, of the SQLite-backed
repository implemented in src/db/sqlite.rs (data model from src/lib.rs),
and proves properties of the embedded operations.

Modelling conventions:
* The database state is a record of the four tables (recipes, steps,
  ingredients, recipe_ingredients), each a list of rows in rowid order;
  SQLite appends new rows at the end, so insertion appends to the list.
* INTEGER PRIMARY KEY columns auto-assign max existing id + 1 (SQLite
  rowid assignment without AUTOINCREMENT), starting at 1.
* Nullable SQL columns are Option-valued; SQL equality on ids is
  NULL-rejecting (NULL = x is not true), captured by sqlEq.
* Composite-primary-key uniqueness follows SQLite unique-index semantics:
  rows with a NULL component never conflict.
* Each mutating operation runs inside one transaction: on any statement
  error the operation returns the error and the pre-call state (rollback);
  on success it returns the new state (commit).
* PRAGMA foreign_keys=1 is set on every pooled connection, so foreign-key
  checks are enforced on every insert.
-/

namespace RecipeBook

/-- SQLite REAL values (Rust f64) are stored and read back verbatim by this
repository and never combined arithmetically, so they are represented by a
type with decidable equality. -/
abbrev SqlReal := Int

/-- Quantity from src/lib.rs: a magnitude and a free-text unit. -/
structure Quantity where
  value : SqlReal
  unit : String
deriving Repr, DecidableEq

/-- IngredientQuantity from src/lib.rs: an ingredient name paired with a
quantity. -/
structure IngredientQuantity where
  ingredient : String
  quantity : Quantity
deriving Repr, DecidableEq

/-- Recipe aggregate from src/lib.rs. -/
structure Recipe where
  id : Option Nat
  name : String
  desc : Option String
  steps : List String
  ingredients : List IngredientQuantity
deriving Repr, DecidableEq

/-- Errors surfaced by rusqlite that the repository can hit while executing
statements: composite-primary-key/unique conflicts and foreign-key
violations. -/
inductive SqlError where
  | primaryKeyConflict
  | foreignKeyViolation
deriving Repr, DecidableEq

/-- Decidable equality of results, used to evaluate the embedded
operations on concrete inputs. -/
instance {e a : Type} [DecidableEq e] [DecidableEq a] : DecidableEq (Except e a)
  | .ok x, .ok y =>
    if h : x = y then isTrue (by rw [h]) else isFalse (by intro hc; cases hc; exact h rfl)
  | .ok _, .error _ => isFalse (by intro hc; cases hc)
  | .error _, .ok _ => isFalse (by intro hc; cases hc)
  | .error x, .error y =>
    if h : x = y then isTrue (by rw [h]) else isFalse (by intro hc; cases hc; exact h rfl)

/-- A row of the recipes table: id INTEGER PRIMARY KEY ASC, name TEXT,
desc TEXT. Both text columns are nullable in the schema. -/
structure RecipeRow where
  id : Nat
  name : Option String
  desc : Option String
deriving Repr, DecidableEq

/-- A row of the steps table: recipe_id INTEGER, text TEXT, with composite
primary key (recipe_id, text) and a cascading foreign key to recipes.
Both columns are nullable: SQLite permits NULL in the composite-primary-key
columns of a rowid table. The repository itself always binds a non-NULL
text, but the table may hold NULL-text rows, which load_steps drops. -/
structure StepRow where
  recipe_id : Option Nat
  text : Option String
deriving Repr, DecidableEq

/-- A row of the ingredients catalog: id INTEGER PRIMARY KEY ASC,
name TEXT NOT NULL UNIQUE. -/
structure IngredientRow where
  id : Nat
  name : String
deriving Repr, DecidableEq

/-- A row of the recipe_ingredients join table: composite primary key
(recipe_id, ingredient_id), cascading foreign keys to recipes and
ingredients. All four columns (quantity REAL, unit TEXT included) are
nullable in the schema; the repository always binds non-NULL values, but
rows holding NULLs fail the per-row decode during load and are dropped. -/
structure RecipeIngredientRow where
  recipe_id : Option Nat
  ingredient_id : Option Nat
  quantity : Option SqlReal
  unit : Option String
deriving Repr, DecidableEq

/-- The state of the four tables created by create_expected_tables. -/
structure DB where
  recipes : List RecipeRow
  steps : List StepRow
  ingredients : List IngredientRow
  recipe_ingredients : List RecipeIngredientRow
deriving Repr, DecidableEq

/-- The state right after setup on a fresh database file. -/
def emptyDB : DB := ⟨[], [], [], []⟩

/-- SQL equality between two nullable columns: NULL compares false
against everything (including NULL). -/
def sqlEq {α : Type} [BEq α] : Option α → Option α → Bool
  | some a, some b => a == b
  | _, _ => false

/-- Largest id in a list of ids (0 when empty). -/
def maxId : List Nat → Nat
  | [] => 0
  | a :: t => max a (maxId t)

/-- The rowid SQLite assigns to the next INSERT into recipes
(last_insert_rowid after the INSERT in add_recipe). -/
def freshRecipeId (db : DB) : Nat := maxId (db.recipes.map (fun row => row.id)) + 1

/-- The rowid SQLite assigns to the next INSERT into ingredients. -/
def freshIngredientId (db : DB) : Nat := maxId (db.ingredients.map (fun row => row.id)) + 1

/-- Does a recipes row with the given id exist? -/
def recipeExists (db : DB) (rid : Nat) : Bool := db.recipes.any (fun row => row.id == rid)

/-- Does an ingredients row with the given id exist? -/
def ingredientExists (db : DB) (iid : Nat) : Bool := db.ingredients.any (fun row => row.id == iid)

/-- Foreign-key check for a nullable recipe_id column value: NULL passes,
otherwise the referenced recipes row must exist. -/
def fkOkRecipe (db : DB) (rid : Option Nat) : Bool :=
  match rid with
  | none => true
  | some i => recipeExists db i

/-- Foreign-key check for a nullable ingredient_id column value. -/
def fkOkIngredient (db : DB) (iid : Option Nat) : Bool :=
  match iid with
  | none => true
  | some i => ingredientExists db i

/-- Is there a steps row that conflicts on the composite primary key
(recipe_id, text) with a new row (rid, text)? Rows with NULL recipe_id
never conflict (sqlEq is NULL-rejecting). -/
def stepConflict (db : DB) (rid : Option Nat) (text : String) : Bool :=
  db.steps.any (fun row => sqlEq row.recipe_id rid && sqlEq row.text (some text))

/-- INSERT INTO steps (recipe_id, text) VALUES (rid, text), with the
foreign-key and composite-primary-key checks SQLite performs. -/
def insertStep (db : DB) (rid : Option Nat) (text : String) : Except SqlError DB :=
  if fkOkRecipe db rid then
    if stepConflict db rid text then .error .primaryKeyConflict
    else .ok { db with steps := db.steps ++ [⟨rid, some text⟩] }
  else .error .foreignKeyViolation

/-- The per-step INSERT loop shared by add_recipe and update_recipe. -/
def insertSteps (rid : Option Nat) : DB → List String → Except SqlError DB
  | db, [] => .ok db
  | db, s :: rest =>
    match insertStep db rid s with
    | .error e => .error e
    | .ok db1 => insertSteps rid db1 rest

/-- INSERT INTO ingredients (name) SELECT (?1) WHERE NOT EXISTS
(SELECT 1 FROM ingredients WHERE name = (?1)): inserts a fresh catalog row
only when no row with that name exists; never fails. -/
def insertIngredientIfAbsent (db : DB) (nm : String) : DB :=
  if db.ingredients.any (fun row => row.name == nm) then db
  else { db with ingredients := db.ingredients ++ [⟨freshIngredientId db, nm⟩] }

/-- Scalar subquery SELECT id FROM ingredients WHERE name = ?, used inside
the recipe_ingredients INSERT: the id of the first matching row, or NULL. -/
def lookupIngredientId (db : DB) (nm : String) : Option Nat :=
  (db.ingredients.find? (fun row => row.name == nm)).map (fun row => row.id)

/-- Is there a recipe_ingredients row that conflicts on the composite
primary key (recipe_id, ingredient_id)? NULL components never conflict. -/
def recipeIngredientConflict (db : DB) (rid iid : Option Nat) : Bool :=
  db.recipe_ingredients.any (fun row => sqlEq row.recipe_id rid && sqlEq row.ingredient_id iid)

/-- INSERT INTO recipe_ingredients (recipe_id, ingredient_id, quantity,
unit) VALUES (rid, (SELECT id FROM ingredients WHERE name = nm), v, u),
with foreign-key and composite-primary-key checks. -/
def insertRecipeIngredient (db : DB) (rid : Option Nat) (nm : String) (v : SqlReal)
    (u : String) : Except SqlError DB :=
  if fkOkRecipe db rid && fkOkIngredient db (lookupIngredientId db nm) then
    if recipeIngredientConflict db rid (lookupIngredientId db nm) then
      .error .primaryKeyConflict
    else .ok { db with recipe_ingredients :=
      db.recipe_ingredients ++ [⟨rid, lookupIngredientId db nm, some v, some u⟩] }
  else .error .foreignKeyViolation

/-- The per-ingredient loop shared by add_recipe and update_recipe: ensure
the catalog row exists, then insert the join row. -/
def insertIngredients (rid : Option Nat) : DB → List IngredientQuantity → Except SqlError DB
  | db, [] => .ok db
  | db, iq :: rest =>
    let db1 := insertIngredientIfAbsent db iq.ingredient
    match insertRecipeIngredient db1 rid iq.ingredient iq.quantity.value iq.quantity.unit with
    | .error e => .error e
    | .ok db2 => insertIngredients rid db2 rest

/-- Transaction wrapper: the body computes a candidate new state from the
current one; on success the transaction commits and the new state becomes
visible, on error the transaction rolls back and the caller observes the
original state together with the error. -/
def commitOrRollback (db : DB) (body : Except SqlError DB) : Except SqlError Unit × DB :=
  match body with
  | .ok db2 => (.ok (), db2)
  | .error e => (.error e, db)

/-- Statement sequence of SqliteRepo::add_recipe: INSERT the recipes row
(the input id is never read), capture last_insert_rowid, INSERT every step,
then for every ingredient-quantity ensure the catalog row and INSERT the
join row. -/
def addRecipeBody (db : DB) (r : Recipe) : Except SqlError DB :=
  let rid := freshRecipeId db
  let db1 : DB := { db with recipes := db.recipes ++ [⟨rid, some r.name, r.desc⟩] }
  match insertSteps (some rid) db1 r.steps with
  | .error e => .error e
  | .ok db2 => insertIngredients (some rid) db2 r.ingredients

/-- SqliteRepo::add_recipe. -/
def add_recipe (db : DB) (r : Recipe) : Except SqlError Unit × DB :=
  commitOrRollback db (addRecipeBody db r)

/-- Statement sequence of SqliteRepo::update_recipe: UPDATE the recipes row
matching the (nullable) id, DELETE that id's steps rows, re-INSERT the new
steps, DELETE that id's recipe_ingredients rows, re-INSERT the new
ingredient set. -/
def updateRecipeBody (db : DB) (r : Recipe) : Except SqlError DB :=
  let db1 : DB := { db with recipes := db.recipes.map (fun row =>
    if sqlEq (some row.id) r.id then { row with name := some r.name, desc := r.desc } else row) }
  let db2 : DB := { db1 with steps := db1.steps.filter (fun row => !(sqlEq row.recipe_id r.id)) }
  match insertSteps r.id db2 r.steps with
  | .error e => .error e
  | .ok db3 =>
    let db4 : DB := { db3 with recipe_ingredients :=
      db3.recipe_ingredients.filter (fun row => !(sqlEq row.recipe_id r.id)) }
    insertIngredients r.id db4 r.ingredients

/-- SqliteRepo::update_recipe. -/
def update_recipe (db : DB) (r : Recipe) : Except SqlError Unit × DB :=
  commitOrRollback db (updateRecipeBody db r)

/-- SqliteRepo::delete_recipe: DELETE FROM recipes WHERE id = (?); the
enforced ON DELETE CASCADE constraints then remove every steps and
recipe_ingredients row whose recipe_id references a deleted recipes row.
The parameter is an i32 (the HTTP query parameter), compared by SQL
integer equality against the stored ids. -/
def delete_recipe (db : DB) (recipe_id : Int) : Except SqlError Unit × DB :=
  let deleted := db.recipes.filter (fun row => (row.id : Int) == recipe_id)
  let db1 : DB :=
    { recipes := db.recipes.filter (fun row => !((row.id : Int) == recipe_id)),
      steps := db.steps.filter (fun row =>
        !(deleted.any (fun d => row.recipe_id == some d.id))),
      ingredients := db.ingredients,
      recipe_ingredients := db.recipe_ingredients.filter (fun row =>
        !(deleted.any (fun d => row.recipe_id == some d.id))) }
  (.ok (), db1)

/-- Lexicographic order on strings by code point, which coincides with
SQLite's BINARY collation order on their UTF-8 encodings (UTF-8 preserves
code-point order). -/
def charListLe : List Char → List Char → Bool
  | [], _ => true
  | _ :: _, [] => false
  | a :: as, b :: bs =>
    if a.toNat < b.toNat then true
    else if b.toNat < a.toNat then false
    else charListLe as bs

/-- BINARY-collation comparison of two text values. -/
def strLe (a b : String) : Bool := charListLe a.data b.data

/-- Insert a string into a strLe-sorted list, keeping it sorted. -/
def insertSorted (s : String) : List String → List String
  | [] => [s]
  | t :: rest => if strLe s t then s :: t :: rest else t :: insertSorted s rest

/-- Sort a list of strings by strLe (insertion sort). -/
def sortStrings : List String → List String
  | [] => []
  | s :: rest => insertSorted s (sortStrings rest)

/-- load_steps: SELECT text FROM steps WHERE recipe_id = ?. The query is
answered by a scan of the covering automatic index on the composite
primary key (recipe_id, text), so the matching rows come back ordered by
text in BINARY collation order, not in insertion order. A NULL text fails
the per-row String decode and the filter_map(ok) drops that row; NULLs
sort before all text values in the index, so dropping them commutes with
the ordering, and the model filters, decodes, then sorts. -/
def load_steps (db : DB) (recipe_id : Nat) : List String :=
  sortStrings ((db.steps.filter (fun row => row.recipe_id == some recipe_id)).filterMap
    (fun row => row.text))

/-- Name of the catalog row with the given id, if any (the LEFT JOIN target
of load_ingredients). -/
def lookupIngredientName (db : DB) (iid : Nat) : Option String :=
  (db.ingredients.find? (fun row => row.id == iid)).map (fun row => row.name)

/-- Row mapper of load_ingredients: the LEFT JOIN yields a NULL name when
ingredient_id is NULL or matches no catalog row, and decoding a NULL name
into a String fails; a NULL quantity fails the f64 decode and a NULL unit
fails the String decode. Any of these failures makes the row decode to
none, and the ok-filter drops it. -/
def decodeIngredientRow (db : DB) (row : RecipeIngredientRow) : Option IngredientQuantity :=
  match row.ingredient_id with
  | none => none
  | some iid =>
    match lookupIngredientName db iid with
    | none => none
    | some nm =>
      match row.quantity, row.unit with
      | some v, some u => some ⟨nm, ⟨v, u⟩⟩
      | _, _ => none

/-- load_ingredients: SELECT name, quantity, unit FROM recipe_ingredients
LEFT JOIN ingredients ON ingredient_id = id WHERE recipe_id = ?, keeping
only rows that decode. -/
def load_ingredients (db : DB) (recipe_id : Nat) : List IngredientQuantity :=
  (db.recipe_ingredients.filter (fun row => row.recipe_id == some recipe_id)).filterMap
    (decodeIngredientRow db)

/-- Row mapper of load_recipes: the id column of a recipes row is the
non-null INTEGER PRIMARY KEY, so it always decodes to some id; the name
column is nullable and decoding a NULL name into a String fails, in which
case the whole row is dropped by the ok-filter. -/
def decodeRecipeRow (db : DB) (row : RecipeRow) : Option Recipe :=
  match row.name with
  | none => none
  | some nm =>
    some { id := some row.id, name := nm, desc := row.desc,
           steps := load_steps db row.id, ingredients := load_ingredients db row.id }

/-- SqliteRepo::load_recipes: SELECT * FROM recipes, then one steps query
and one ingredients query per row; rows that fail to decode are dropped by
filter_map(ok); the overall result is Ok. -/
def load_recipes (db : DB) : Except SqlError (List Recipe) :=
  .ok (db.recipes.filterMap (decodeRecipeRow db))

/-- One mutating write of a recipe aggregate, as the claims quantify over
it: either an add (storage assigns a fresh id, the input id is ignored) or
an update (the aggregate's own id addresses the replaced rows). -/
def writeRecipe (db : DB) (r : Recipe) (useUpdate : Bool) : Except SqlError Unit × DB :=
  if useUpdate then update_recipe db r else add_recipe db r

/-- The recipe_id column value under which writeRecipe stores the
aggregate's steps and join rows. -/
def writtenRecipeId (db : DB) (r : Recipe) (useUpdate : Bool) : Option Nat :=
  if useUpdate then r.id else some (freshRecipeId db)

/-- The two foreign-key constraints the engine enforces on stored rows:
every non-null recipe_id in steps and recipe_ingredients references an
existing recipes row, and every non-null ingredient_id references an
existing catalog row. Every database state reachable through this
repository (with PRAGMA foreign_keys=1) satisfies it. -/
def fkConsistent (db : DB) : Bool :=
  db.steps.all (fun row => fkOkRecipe db row.recipe_id) &&
    db.recipe_ingredients.all (fun row =>
      fkOkRecipe db row.recipe_id && fkOkIngredient db row.ingredient_id)

/-- The recipes rows that decode successfully during load_recipes: those
with a non-NULL name column. -/
def decodableRecipes (db : DB) : List RecipeRow :=
  db.recipes.filter (fun row => row.name.isSome)

/-- The steps rows that decode successfully during load_steps: those whose
text column is non-NULL. -/
def decodableSteps (db : DB) : List StepRow :=
  db.steps.filter (fun row => row.text.isSome)

/-- The recipe_ingredients rows that decode successfully during load: the
LEFT JOIN against the catalog yields a non-NULL name and the quantity and
unit columns are non-NULL. -/
def decodableRI (db : DB) : List RecipeIngredientRow :=
  db.recipe_ingredients.filter (fun row => (decodeIngredientRow db row).isSome)

/-- The literal recipe of the spec scenario, used to evaluate the embedded
operations on a concrete input. -/
def testRecipe : Recipe :=
  ⟨none, "Test Recipe", some "Test Description", ["Step 1"],
    [⟨"Potato", ⟨1, "whole"⟩⟩]⟩

/-- The UNIQUE constraint on ingredients.name, seen as an invariant of the
stored catalog: no two catalog rows share a name. -/
abbrev namesNodup (catalog : List IngredientRow) : Prop :=
  (catalog.map (fun row => row.name)).Nodup

/-- The PRIMARY KEY constraint on ingredients.id, seen as an invariant of
the stored catalog: no two catalog rows share an id. -/
abbrev idsNodup (catalog : List IngredientRow) : Prop :=
  (catalog.map (fun row => row.id)).Nodup

/-- Pool checkout either yields a connection or fails (for example on
checkout timeout). -/
inductive PoolCheckout (α : Type) where
  | ok (conn : α)
  | err
deriving Repr, DecidableEq

/-- Outcome of a call that may terminate the whole process. -/
inductive PanicOr (α : Type) where
  | panicked
  | value (a : α)
deriving Repr, DecidableEq

/-- SqliteRepo::get_conn: self.conn_man.get().unwrap() — a failed pool
checkout is unwrapped, which panics and terminates the process instead of
returning an error to the caller. -/
def get_conn {α : Type} (checkout : PoolCheckout α) : PanicOr α :=
  match checkout with
  | .ok c => .value c
  | .err => .panicked

/-- Whether the process survives schema creation. -/
inductive ProcOutcome where
  | proceeded
  | aborted
deriving Repr, DecidableEq

/-- SqliteRepo::create_expected_tables, abstracted over the outcome of each
of the four CREATE TABLE IF NOT EXISTS statements (in source order:
recipes, steps, ingredients, recipe_ingredients). The recipes result is
saved and checked at the end (panic on error); the steps result is bound
to an underscore and never inspected; the ingredients and
recipe_ingredients results are unwrapped immediately (panic on error). -/
def create_expected_tables (createRecipes _createSteps createIngredients
    createRecipeIngredients : Except SqlError Unit) : ProcOutcome :=
  match createIngredients with
  | .error _ => .aborted
  | .ok _ =>
    match createRecipeIngredients with
    | .error _ => .aborted
    | .ok _ =>
      match createRecipes with
      | .error _ => .aborted
      | .ok _ => .proceeded

/-! Basic lemmas about ids and SQL equality. -/

theorem le_maxId {x : Nat} : ∀ {ids : List Nat}, x ∈ ids → x ≤ maxId ids := by
  intro ids h
  induction ids with
  | nil => cases h
  | cons a t ih =>
    rcases List.mem_cons.mp h with h1 | h2
    · subst h1; exact Nat.le_max_left _ _
    · exact Nat.le_trans (ih h2) (Nat.le_max_right _ _)

theorem freshIngredientId_not_mem (db : DB) :
    freshIngredientId db ∉ db.ingredients.map (fun row => row.id) := by
  intro hmem
  have := le_maxId hmem
  simp only [freshIngredientId] at this
  omega

theorem sqlEq_some_some {α : Type} [BEq α] {a b : α} :
    sqlEq (some a) (some b) = (a == b) := rfl

@[simp] theorem sqlEq_none_left {α : Type} [BEq α] {x : Option α} :
    sqlEq none x = false := by
  cases x <;> rfl

@[simp] theorem sqlEq_none_right {α : Type} [BEq α] {x : Option α} :
    sqlEq x none = false := by
  cases x <;> rfl

theorem sqlEq_true_iff {α : Type} [BEq α] [LawfulBEq α] {x y : Option α} :
    sqlEq x y = true ↔ ∃ a, x = some a ∧ y = some a := by
  cases x <;> cases y <;> simp [sqlEq]
  exact eq_comm

/-! Lemmas about the step-insertion statements. -/

theorem insertStep_ok_elim {db db' : DB} {rid : Option Nat} {s : String}
    (h : insertStep db rid s = .ok db') :
    fkOkRecipe db rid = true ∧ stepConflict db rid s = false ∧
      db' = { db with steps := db.steps ++ [⟨rid, s⟩] } := by
  unfold insertStep at h
  split at h
  · split at h
    · simp at h
    · cases h
      refine ⟨by assumption, by simp_all, rfl⟩
  · simp at h

theorem insertStep_err_elim {db : DB} {rid : Option Nat} {s : String} {e : SqlError}
    (h : insertStep db rid s = .error e)
    (hfk : fkOkRecipe db rid = true) : e = SqlError.primaryKeyConflict := by
  unfold insertStep at h
  split at h
  · split at h
    · cases h; rfl
    · simp at h
  · simp_all

theorem insertSteps_preserves {rid : Option Nat} :
    ∀ {l : List String} {db db' : DB}, insertSteps rid db l = .ok db' →
      db'.recipes = db.recipes ∧ db'.ingredients = db.ingredients ∧
        db'.recipe_ingredients = db.recipe_ingredients ∧
        ∃ ext, db'.steps = db.steps ++ ext := by
  intro l
  induction l with
  | nil =>
    intro db db' h
    simp only [insertSteps] at h
    cases h
    exact ⟨rfl, rfl, rfl, [], by simp⟩
  | cons s rest ih =>
    intro db db' h
    simp only [insertSteps] at h
    cases heq : insertStep db rid s with
    | error e => rw [heq] at h; simp at h
    | ok db1 =>
      rw [heq] at h
      obtain ⟨hfk, hconf, hdb1⟩ := insertStep_ok_elim heq
      obtain ⟨h1, h2, h3, ext, h4⟩ := ih h
      subst hdb1
      refine ⟨h1, h2, h3, StepRow.mk rid s :: ext, ?_⟩
      simpa [List.append_assoc] using h4

theorem recipeExists_congr {db db' : DB} {rid : Nat} (h : db'.recipes = db.recipes) :
    recipeExists db' rid = recipeExists db rid := by
  simp [recipeExists, h]

theorem stepConflict_append {db : DB} {extra : List StepRow} {rid : Option Nat} {s : String} :
    stepConflict { db with steps := db.steps ++ extra } rid s =
      (stepConflict db rid s ||
        extra.any (fun row => sqlEq row.recipe_id rid && sqlEq row.text (some s))) := by
  simp [stepConflict, List.any_append]

theorem insertSteps_spec {rid : Nat} :
    ∀ {l : List String} {db : DB}, recipeExists db rid = true →
      (∀ s ∈ l, stepConflict db (some rid) s = false) → l.Nodup →
      insertSteps (some rid) db l =
        .ok { db with steps := db.steps ++ l.map (fun s => ⟨some rid, s⟩) } := by
  intro l
  induction l with
  | nil =>
    intro db _ _ _
    simp only [insertSteps, List.map_nil, List.append_nil]
  | cons s rest ih =>
    intro db hex hconf hnd
    have hstep : insertStep db (some rid) s =
        .ok { db with steps := db.steps ++ [⟨some rid, s⟩] } := by
      unfold insertStep
      rw [show fkOkRecipe db (some rid) = true from hex,
        hconf s (List.mem_cons_self s rest)]
      simp
    simp only [insertSteps, hstep]
    have hex1 : recipeExists { db with steps := db.steps ++ [⟨some rid, s⟩] } rid = true := by
      rw [recipeExists_congr rfl]; exact hex
    have hnd1 := List.nodup_cons.mp hnd
    have hconf1 : ∀ t ∈ rest,
        stepConflict { db with steps := db.steps ++ [⟨some rid, s⟩] } (some rid) t = false := by
      intro t ht
      rw [stepConflict_append]
      have h1 := hconf t (List.mem_cons_of_mem s ht)
      have h2 : s ≠ t := fun hst => hnd1.1 (hst ▸ ht)
      simp [h1, h2, sqlEq_some_some]
    have := ih hex1 hconf1 hnd1.2
    rw [this]
    simp [List.append_assoc]

theorem insertSteps_fail_of_conflict {rid : Nat} {s : String} :
    ∀ {l : List String} {db db' : DB}, (⟨some rid, s⟩ : StepRow) ∈ db.steps →
      s ∈ l → insertSteps (some rid) db l = .ok db' → False := by
  intro l
  induction l with
  | nil => intro db db' _ hs _; cases hs
  | cons t rest ih =>
    intro db db' hrow hs h
    simp only [insertSteps] at h
    cases heq : insertStep db (some rid) t with
    | error e => rw [heq] at h; simp at h
    | ok db1 =>
      rw [heq] at h
      obtain ⟨hfk, hconf, hdb1⟩ := insertStep_ok_elim heq
      by_cases hts : t = s
      · subst hts
        have : stepConflict db (some rid) t = true := by
          simp only [stepConflict, List.any_eq_true]
          exact ⟨⟨some rid, t⟩, hrow, by simp [sqlEq_some_some]⟩
        rw [this] at hconf; cases hconf
      · have hs' : s ∈ rest := by
          rcases List.mem_cons.mp hs with h1 | h1
          · exact absurd h1.symm hts
          · exact h1
        have hrow1 : (⟨some rid, s⟩ : StepRow) ∈ db1.steps := by
          subst hdb1
          exact List.mem_append_left _ hrow
        exact ih hrow1 hs' h

theorem insertSteps_ok_nodup {rid : Nat} :
    ∀ {l : List String} {db db' : DB},
      insertSteps (some rid) db l = .ok db' → l.Nodup := by
  intro l
  induction l with
  | nil => intro db db' _; exact List.nodup_nil
  | cons t rest ih =>
    intro db db' h
    simp only [insertSteps] at h
    cases heq : insertStep db (some rid) t with
    | error e => rw [heq] at h; simp at h
    | ok db1 =>
      rw [heq] at h
      obtain ⟨hfk, hconf, hdb1⟩ := insertStep_ok_elim heq
      refine List.nodup_cons.mpr ⟨?_, ih h⟩
      intro hmem
      have hrow1 : (⟨some rid, t⟩ : StepRow) ∈ db1.steps := by
        subst hdb1
        exact List.mem_append_right _ (List.mem_singleton.mpr rfl)
      exact insertSteps_fail_of_conflict hrow1 hmem h

theorem insertSteps_err_kind {rid : Nat} :
    ∀ {l : List String} {db : DB} {e : SqlError}, recipeExists db rid = true →
      insertSteps (some rid) db l = .error e → e = SqlError.primaryKeyConflict := by
  intro l
  induction l with
  | nil => intro db e _ h; simp [insertSteps] at h
  | cons t rest ih =>
    intro db e hex h
    simp only [insertSteps] at h
    cases heq : insertStep db (some rid) t with
    | error e1 =>
      rw [heq] at h
      cases h
      exact insertStep_err_elim heq hex
    | ok db1 =>
      rw [heq] at h
      obtain ⟨hfk, hconf, hdb1⟩ := insertStep_ok_elim heq
      have hex1 : recipeExists db1 rid = true := by
        rw [recipeExists_congr (by subst hdb1; rfl)]; exact hex
      exact ih hex1 h

/-! Lemmas about the ingredient catalog statements. -/

theorem insertIngredientIfAbsent_preserves (db : DB) (nm : String) :
    (insertIngredientIfAbsent db nm).recipes = db.recipes ∧
      (insertIngredientIfAbsent db nm).steps = db.steps ∧
      (insertIngredientIfAbsent db nm).recipe_ingredients = db.recipe_ingredients ∧
      ∃ ext, (insertIngredientIfAbsent db nm).ingredients = db.ingredients ++ ext := by
  unfold insertIngredientIfAbsent
  split
  · exact ⟨rfl, rfl, rfl, [], by simp⟩
  · exact ⟨rfl, rfl, rfl, [⟨freshIngredientId db, nm⟩], rfl⟩

theorem lookupIngredientId_congr {db db' : DB} (h : db'.ingredients = db.ingredients)
    (nm : String) : lookupIngredientId db' nm = lookupIngredientId db nm := by
  simp [lookupIngredientId, h]

theorem lookupIngredientId_mem {db : DB} {nm : String} {iid : Nat}
    (h : lookupIngredientId db nm = some iid) :
    (⟨iid, nm⟩ : IngredientRow) ∈ db.ingredients := by
  unfold lookupIngredientId at h
  cases hfind : db.ingredients.find? (fun row => row.name == nm) with
  | none => rw [hfind] at h; simp at h
  | some row =>
    rw [hfind, Option.map_some'] at h
    have hmem := List.mem_of_find?_eq_some hfind
    have hp := List.find?_some hfind
    have hnm : row.name = nm := by simpa using hp
    have hrow : row = ⟨iid, nm⟩ := by
      cases row
      simp_all
    exact hrow ▸ hmem

theorem lookupIngredientId_stable {db : DB} {nm : String} {iid : Nat} {ext : List IngredientRow}
    (h : lookupIngredientId db nm = some iid) {db' : DB}
    (hext : db'.ingredients = db.ingredients ++ ext) :
    lookupIngredientId db' nm = some iid := by
  unfold lookupIngredientId at h ⊢
  cases hfind : db.ingredients.find? (fun row => row.name == nm) with
  | none => rw [hfind] at h; simp at h
  | some row =>
    rw [hfind, Option.map_some'] at h
    rw [hext, List.find?_append, hfind, Option.or_some, Option.map_some']
    exact h

theorem insertIngredientIfAbsent_lookup (db : DB) (nm : String) :
    ∃ iid, lookupIngredientId (insertIngredientIfAbsent db nm) nm = some iid := by
  unfold insertIngredientIfAbsent
  split
  · next hany =>
    simp only [List.any_eq_true] at hany
    obtain ⟨row, hmem, hname⟩ := hany
    have hsome : (db.ingredients.find? (fun row => row.name == nm)).isSome :=
      List.find?_isSome.mpr ⟨row, hmem, hname⟩
    obtain ⟨row2, hrow2⟩ := Option.isSome_iff_exists.mp hsome
    exact ⟨row2.id, by simp [lookupIngredientId, hrow2, Option.map_some']⟩
  · next hany =>
    refine ⟨freshIngredientId db, ?_⟩
    have hnone : db.ingredients.find? (fun row => row.name == nm) = none := by
      rw [List.find?_eq_none]
      intro x hx hpx
      exact hany (List.any_eq_true.mpr ⟨x, hx, hpx⟩)
    simp [lookupIngredientId, List.find?_append, hnone]

theorem insertIngredientIfAbsent_idsNodup {db : DB} (h : idsNodup db.ingredients)
    (nm : String) : idsNodup (insertIngredientIfAbsent db nm).ingredients := by
  unfold insertIngredientIfAbsent
  split
  · exact h
  · show ((db.ingredients ++ ([⟨freshIngredientId db, nm⟩] : List IngredientRow)).map (fun row => row.id)).Nodup
    rw [List.map_append]
    refine List.Nodup.append h (by simp) ?_
    rw [show (([⟨freshIngredientId db, nm⟩] : List IngredientRow).map (fun row => row.id)) =
      [freshIngredientId db] from rfl, List.disjoint_singleton]
    exact freshIngredientId_not_mem db

theorem insertIngredientIfAbsent_namesNodup {db : DB} (h : namesNodup db.ingredients)
    (nm : String) : namesNodup (insertIngredientIfAbsent db nm).ingredients := by
  unfold insertIngredientIfAbsent
  split
  · exact h
  · next hany =>
    show ((db.ingredients ++ ([⟨freshIngredientId db, nm⟩] : List IngredientRow)).map (fun row => row.name)).Nodup
    rw [List.map_append]
    refine List.Nodup.append h (by simp) ?_
    rw [show (([⟨freshIngredientId db, nm⟩] : List IngredientRow).map (fun row => row.name)) =
      [nm] from rfl, List.disjoint_singleton]
    intro hmem
    obtain ⟨row, hrow, hname⟩ := List.mem_map.mp hmem
    exact hany (List.any_eq_true.mpr ⟨row, hrow, by simp [hname]⟩)

theorem ingredientRow_inj {db : DB} (h : idsNodup db.ingredients) {r1 r2 : IngredientRow}
    (h1 : r1 ∈ db.ingredients) (h2 : r2 ∈ db.ingredients) (heq : r1.id = r2.id) :
    r1 = r2 :=
  List.inj_on_of_nodup_map h h1 h2 heq

theorem fkOkIngredient_lookup (db : DB) (nm : String) :
    fkOkIngredient db (lookupIngredientId db nm) = true := by
  cases hlook : lookupIngredientId db nm with
  | none => rfl
  | some iid =>
    have hmem := lookupIngredientId_mem hlook
    simp only [fkOkIngredient, ingredientExists, List.any_eq_true]
    exact ⟨⟨iid, nm⟩, hmem, by simp⟩

theorem insertRecipeIngredient_ok_elim {db db' : DB} {rid : Option Nat} {nm : String}
    {v : SqlReal} {u : String} (h : insertRecipeIngredient db rid nm v u = .ok db') :
    fkOkRecipe db rid = true ∧
      recipeIngredientConflict db rid (lookupIngredientId db nm) = false ∧
      db' = { db with recipe_ingredients :=
        db.recipe_ingredients ++ [⟨rid, lookupIngredientId db nm, v, u⟩] } := by
  unfold insertRecipeIngredient at h
  split at h
  · next hfk =>
    split at h
    · simp at h
    · cases h
      simp only [Bool.and_eq_true] at hfk
      exact ⟨hfk.1, by simp_all, rfl⟩
  · simp at h

theorem insertRecipeIngredient_err_elim {db : DB} {rid : Option Nat} {nm : String}
    {v : SqlReal} {u : String} {e : SqlError}
    (h : insertRecipeIngredient db rid nm v u = .error e)
    (hfk : fkOkRecipe db rid = true) : e = SqlError.primaryKeyConflict := by
  unfold insertRecipeIngredient at h
  rw [hfk, fkOkIngredient_lookup] at h
  simp only [Bool.and_self, if_true] at h
  split at h
  · cases h; rfl
  · simp at h

/-! Lemmas about the per-ingredient insertion loop. -/

theorem insertIngredients_ok_spec {rid : Option Nat} :
    ∀ {l : List IngredientQuantity} {db db' : DB},
      insertIngredients rid db l = .ok db' →
      db'.recipes = db.recipes ∧ db'.steps = db.steps ∧
        (∃ ext, db'.ingredients = db.ingredients ++ ext) ∧
        (idsNodup db.ingredients → idsNodup db'.ingredients) ∧
        (namesNodup db.ingredients → namesNodup db'.ingredients) ∧
        ∃ rows, db'.recipe_ingredients = db.recipe_ingredients ++ rows ∧
          List.Forall₂ (fun iq row =>
            row.recipe_id = rid ∧ row.quantity = iq.quantity.value ∧
              row.unit = iq.quantity.unit ∧
              ∃ iid, row.ingredient_id = some iid ∧
                (⟨iid, iq.ingredient⟩ : IngredientRow) ∈ db'.ingredients) l rows := by
  intro l
  induction l with
  | nil =>
    intro db db' h
    simp only [insertIngredients] at h
    cases h
    exact ⟨rfl, rfl, ⟨[], by simp⟩, id, id, [], by simp, List.Forall₂.nil⟩
  | cons iq rest ih =>
    intro db db' h
    simp only [insertIngredients] at h
    cases heq : insertRecipeIngredient (insertIngredientIfAbsent db iq.ingredient) rid
        iq.ingredient iq.quantity.value iq.quantity.unit with
    | error e => rw [heq] at h; simp at h
    | ok db2 =>
      rw [heq] at h
      obtain ⟨hfk, hconf, hdb2⟩ := insertRecipeIngredient_ok_elim heq
      obtain ⟨hpr, hps, hpri, ext1, hpe⟩ :=
        insertIngredientIfAbsent_preserves db iq.ingredient
      obtain ⟨iidT, hlook⟩ := insertIngredientIfAbsent_lookup db iq.ingredient
      have hr2 : db2.recipes = db.recipes := by rw [hdb2]; exact hpr
      have hs2 : db2.steps = db.steps := by rw [hdb2]; exact hps
      have hi2 : db2.ingredients = db.ingredients ++ ext1 := by rw [hdb2]; exact hpe
      have hri2 : db2.recipe_ingredients = db.recipe_ingredients ++
          [⟨rid, some iidT, iq.quantity.value, iq.quantity.unit⟩] := by
        rw [hdb2]
        show (insertIngredientIfAbsent db iq.ingredient).recipe_ingredients ++
          [⟨rid, lookupIngredientId (insertIngredientIfAbsent db iq.ingredient)
            iq.ingredient, iq.quantity.value, iq.quantity.unit⟩] =
          db.recipe_ingredients ++
            [⟨rid, some iidT, iq.quantity.value, iq.quantity.unit⟩]
        rw [hpri, hlook]
      obtain ⟨h1, h2, h3, h4, h5, rows, h6, h7⟩ := ih h
      obtain ⟨ext2, hext2⟩ := h3
      have hing : db'.ingredients = db.ingredients ++ (ext1 ++ ext2) := by
        rw [hext2, hi2, List.append_assoc]
      refine ⟨by rw [h1, hr2], by rw [h2, hs2], ⟨ext1 ++ ext2, hing⟩, ?_, ?_, ?_⟩
      · intro hnd
        apply h4
        show idsNodup db2.ingredients
        rw [hi2, ← hpe]
        exact insertIngredientIfAbsent_idsNodup hnd iq.ingredient
      · intro hnd
        apply h5
        show namesNodup db2.ingredients
        rw [hi2, ← hpe]
        exact insertIngredientIfAbsent_namesNodup hnd iq.ingredient
      · refine ⟨⟨rid, some iidT, iq.quantity.value, iq.quantity.unit⟩ :: rows, ?_, ?_⟩
        · rw [h6, hri2, List.append_assoc]
          rfl
        · refine List.Forall₂.cons ⟨rfl, rfl, rfl, iidT, rfl, ?_⟩ h7
          have hmem := lookupIngredientId_mem hlook
          rw [hpe] at hmem
          rw [hing, ← List.append_assoc]
          exact List.mem_append_left _ hmem

theorem insertIngredients_ok_of_nodup {rid : Nat} :
    ∀ {l : List IngredientQuantity} {db : DB}, recipeExists db rid = true →
      idsNodup db.ingredients → (l.map (fun iq => iq.ingredient)).Nodup →
      (∀ row ∈ db.recipe_ingredients, sqlEq row.recipe_id (some rid) = true →
        ∃ iid nm, row.ingredient_id = some iid ∧ lookupIngredientId db nm = some iid ∧
          nm ∉ l.map (fun iq => iq.ingredient)) →
      ∃ db', insertIngredients (some rid) db l = .ok db' := by
  intro l
  induction l with
  | nil => intro db _ _ _ _; exact ⟨db, rfl⟩
  | cons iq rest ih =>
    intro db hex hnd hlnd hH
    obtain ⟨hpr, hps, hpri, ext1, hpe⟩ := insertIngredientIfAbsent_preserves db iq.ingredient
    obtain ⟨iidT, hlook⟩ := insertIngredientIfAbsent_lookup db iq.ingredient
    have hnd1 : idsNodup (insertIngredientIfAbsent db iq.ingredient).ingredients :=
      insertIngredientIfAbsent_idsNodup hnd iq.ingredient
    have hex1 : recipeExists (insertIngredientIfAbsent db iq.ingredient) rid = true := by
      rw [recipeExists_congr hpr]; exact hex
    have hconf : recipeIngredientConflict (insertIngredientIfAbsent db iq.ingredient)
        (some rid) (some iidT) = false := by
      by_contra hc
      rw [Bool.not_eq_false, recipeIngredientConflict, List.any_eq_true] at hc
      obtain ⟨row, hrow, hcond⟩ := hc
      rw [Bool.and_eq_true] at hcond
      rw [hpri] at hrow
      obtain ⟨iid, nm, hrig, hlooknm, hnotin⟩ := hH row hrow hcond.1
      have hiid : iid = iidT := by
        rw [hrig] at hcond
        obtain ⟨a, ha1, ha2⟩ := sqlEq_true_iff.mp hcond.2
        simp only [Option.some.injEq] at ha1 ha2
        omega
      subst hiid
      have hlooknm1 : lookupIngredientId (insertIngredientIfAbsent db iq.ingredient) nm =
          some iid := lookupIngredientId_stable hlooknm hpe
      have hm1 := lookupIngredientId_mem hlooknm1
      have hm2 := lookupIngredientId_mem hlook
      have hroweq : (⟨iid, nm⟩ : IngredientRow) = ⟨iid, iq.ingredient⟩ :=
        ingredientRow_inj hnd1 hm1 hm2 rfl
      have hnmiq : nm = iq.ingredient := by cases hroweq; rfl
      exact hnotin (by rw [hnmiq]; exact List.mem_cons_self _ _)
    have hins : insertRecipeIngredient (insertIngredientIfAbsent db iq.ingredient)
        (some rid) iq.ingredient iq.quantity.value iq.quantity.unit =
        .ok { insertIngredientIfAbsent db iq.ingredient with recipe_ingredients :=
          (insertIngredientIfAbsent db iq.ingredient).recipe_ingredients ++
            [⟨some rid, some iidT, iq.quantity.value, iq.quantity.unit⟩] } := by
      have hfkI : fkOkIngredient (insertIngredientIfAbsent db iq.ingredient)
          (some iidT) = true := by
        have hmem := lookupIngredientId_mem hlook
        simp only [fkOkIngredient, ingredientExists, List.any_eq_true]
        exact ⟨⟨iidT, iq.ingredient⟩, hmem, by simp⟩
      unfold insertRecipeIngredient
      rw [hlook, show fkOkRecipe (insertIngredientIfAbsent db iq.ingredient)
          (some rid) = true from hex1, hfkI, hconf]
      simp
    have hlnd' : (iq.ingredient :: rest.map (fun iq2 => iq2.ingredient)).Nodup := by
      simpa only [List.map_cons] using hlnd
    have hlnd1 := List.nodup_cons.mp hlnd'
    have hH2 : ∀ row ∈ ({ insertIngredientIfAbsent db iq.ingredient with recipe_ingredients :=
          (insertIngredientIfAbsent db iq.ingredient).recipe_ingredients ++
            [⟨some rid, some iidT, iq.quantity.value, iq.quantity.unit⟩] } : DB).recipe_ingredients,
        sqlEq row.recipe_id (some rid) = true →
        ∃ iid nm, row.ingredient_id = some iid ∧
          lookupIngredientId { insertIngredientIfAbsent db iq.ingredient with recipe_ingredients :=
            (insertIngredientIfAbsent db iq.ingredient).recipe_ingredients ++
              [⟨some rid, some iidT, iq.quantity.value, iq.quantity.unit⟩] } nm = some iid ∧
          nm ∉ rest.map (fun iq2 => iq2.ingredient) := by
      intro row hrow hr
      have hrow2 : row ∈ db.recipe_ingredients ++
          [⟨some rid, some iidT, iq.quantity.value, iq.quantity.unit⟩] := by
        rw [← hpri]
        exact hrow
      rcases List.mem_append.mp hrow2 with hold | hnew
      · obtain ⟨iid, nm, hrig, hlooknm, hnotin⟩ := hH row hold hr
        refine ⟨iid, nm, hrig, lookupIngredientId_stable hlooknm hpe, ?_⟩
        intro hmem
        exact hnotin (List.mem_cons_of_mem _ hmem)
      · rw [List.mem_singleton.mp hnew]
        refine ⟨iidT, iq.ingredient, rfl, ?_, hlnd1.1⟩
        exact lookupIngredientId_stable hlook
          (show _ = (insertIngredientIfAbsent db iq.ingredient).ingredients ++ [] by simp)
    obtain ⟨db', hdb'⟩ := @ih { insertIngredientIfAbsent db iq.ingredient with
        recipe_ingredients :=
          (insertIngredientIfAbsent db iq.ingredient).recipe_ingredients ++
            [⟨some rid, some iidT, iq.quantity.value, iq.quantity.unit⟩] }
      hex1 hnd1 hlnd1.2 hH2
    refine ⟨db', ?_⟩
    simp only [insertIngredients]
    rw [hins]
    exact hdb'

theorem insertIngredients_fail_of_lookup {rid : Nat} {nm : String} {iid : Nat} :
    ∀ {l : List IngredientQuantity} {db db' : DB} {row : RecipeIngredientRow},
      row ∈ db.recipe_ingredients → row.recipe_id = some rid →
      row.ingredient_id = some iid → lookupIngredientId db nm = some iid →
      nm ∈ l.map (fun iq => iq.ingredient) →
      insertIngredients (some rid) db l = .ok db' → False := by
  intro l
  induction l with
  | nil => intro db db' row _ _ _ _ hmem _; simp at hmem
  | cons t rest ih =>
    intro db db' row hrow hrid hiid hlooknm hmem h
    simp only [insertIngredients] at h
    obtain ⟨hpr, hps, hpri, ext1, hpe⟩ := insertIngredientIfAbsent_preserves db t.ingredient
    cases heq : insertRecipeIngredient (insertIngredientIfAbsent db t.ingredient) (some rid)
        t.ingredient t.quantity.value t.quantity.unit with
    | error e => rw [heq] at h; simp at h
    | ok db2 =>
      rw [heq] at h
      obtain ⟨hfk, hconf, hdb2⟩ := insertRecipeIngredient_ok_elim heq
      have hlook1 : lookupIngredientId (insertIngredientIfAbsent db t.ingredient) nm =
          some iid := lookupIngredientId_stable hlooknm hpe
      by_cases hteq : t.ingredient = nm
      · have hlookt : lookupIngredientId (insertIngredientIfAbsent db t.ingredient)
            t.ingredient = some iid := by
          rw [show lookupIngredientId (insertIngredientIfAbsent db t.ingredient)
              t.ingredient = lookupIngredientId (insertIngredientIfAbsent db t.ingredient)
              nm from by rw [hteq]]
          exact hlook1
        have hconf2 : recipeIngredientConflict (insertIngredientIfAbsent db t.ingredient)
            (some rid) (lookupIngredientId (insertIngredientIfAbsent db t.ingredient)
              t.ingredient) = true := by
          rw [hlookt]
          rw [recipeIngredientConflict, List.any_eq_true]
          refine ⟨row, by rw [hpri]; exact hrow, ?_⟩
          rw [hrid, hiid]
          simp [sqlEq_some_some]
        rw [hconf2] at hconf
        cases hconf
      · have hmem2 : nm ∈ rest.map (fun iq => iq.ingredient) := by
          rcases List.mem_cons.mp (by simpa only [List.map_cons] using hmem) with h1 | h1
          · exact absurd h1.symm hteq
          · exact h1
        have hrow2 : row ∈ db2.recipe_ingredients := by
          rw [hdb2]
          refine List.mem_append_left _ ?_
          rw [hpri]
          exact hrow
        have hlook2 : lookupIngredientId db2 nm = some iid :=
          @lookupIngredientId_stable db nm iid ext1 hlooknm db2 (by rw [hdb2]; exact hpe)
        exact ih hrow2 hrid hiid hlook2 hmem2 h

theorem insertIngredients_ok_nodup {rid : Nat} :
    ∀ {l : List IngredientQuantity} {db db' : DB},
      insertIngredients (some rid) db l = .ok db' →
      (l.map (fun iq => iq.ingredient)).Nodup := by
  intro l
  induction l with
  | nil => intro db db' _; simp
  | cons t rest ih =>
    intro db db' h
    simp only [insertIngredients] at h
    obtain ⟨hpr, hps, hpri, ext1, hpe⟩ := insertIngredientIfAbsent_preserves db t.ingredient
    obtain ⟨iidT, hlook⟩ := insertIngredientIfAbsent_lookup db t.ingredient
    cases heq : insertRecipeIngredient (insertIngredientIfAbsent db t.ingredient) (some rid)
        t.ingredient t.quantity.value t.quantity.unit with
    | error e => rw [heq] at h; simp at h
    | ok db2 =>
      rw [heq] at h
      obtain ⟨hfk, hconf, hdb2⟩ := insertRecipeIngredient_ok_elim heq
      rw [List.map_cons]
      refine List.nodup_cons.mpr ⟨?_, ih h⟩
      intro hmem
      have hrow2 : (⟨some rid, some iidT, t.quantity.value, t.quantity.unit⟩ :
          RecipeIngredientRow) ∈ db2.recipe_ingredients := by
        rw [hdb2, hlook]
        exact List.mem_append_right _ (List.mem_singleton.mpr rfl)
      have hlook2 : lookupIngredientId db2 t.ingredient = some iidT :=
        @lookupIngredientId_stable (insertIngredientIfAbsent db t.ingredient) t.ingredient
          iidT [] hlook db2 (by rw [hdb2]; simp)
      exact insertIngredients_fail_of_lookup hrow2 rfl rfl hlook2 hmem h

theorem insertIngredients_err_kind {rid : Nat} :
    ∀ {l : List IngredientQuantity} {db : DB} {e : SqlError},
      recipeExists db rid = true →
      insertIngredients (some rid) db l = .error e →
      e = SqlError.primaryKeyConflict := by
  intro l
  induction l with
  | nil => intro db e _ h; simp [insertIngredients] at h
  | cons t rest ih =>
    intro db e hex h
    simp only [insertIngredients] at h
    obtain ⟨hpr, hps, hpri, ext1, hpe⟩ := insertIngredientIfAbsent_preserves db t.ingredient
    have hex1 : recipeExists (insertIngredientIfAbsent db t.ingredient) rid = true := by
      rw [recipeExists_congr hpr]; exact hex
    cases heq : insertRecipeIngredient (insertIngredientIfAbsent db t.ingredient) (some rid)
        t.ingredient t.quantity.value t.quantity.unit with
    | error e1 =>
      rw [heq] at h
      cases h
      exact insertRecipeIngredient_err_elim heq hex1
    | ok db2 =>
      rw [heq] at h
      obtain ⟨hfk, hconf, hdb2⟩ := insertRecipeIngredient_ok_elim heq
      have hex2 : recipeExists db2 rid = true := by
        have : db2.recipes = db.recipes := by
          rw [hdb2]
          exact hpr
        rw [recipeExists_congr this]
        exact hex
      exact ih hex2 h

/-! Catalog lookup and filtering helpers. -/

theorem lookupIngredientName_of_mem {db : DB} (hnd : idsNodup db.ingredients)
    {iid : Nat} {nm : String} (hmem : (⟨iid, nm⟩ : IngredientRow) ∈ db.ingredients) :
    lookupIngredientName db iid = some nm := by
  unfold lookupIngredientName
  cases hfind : db.ingredients.find? (fun row => row.id == iid) with
  | none =>
    rw [List.find?_eq_none] at hfind
    exact absurd (by simp : ((⟨iid, nm⟩ : IngredientRow).id == iid) = true)
      (hfind _ hmem)
  | some row2 =>
    rw [Option.map_some']
    have hmem2 := List.mem_of_find?_eq_some hfind
    have hp := List.find?_some hfind
    have hid : row2.id = iid := by simpa using hp
    have : row2 = ⟨iid, nm⟩ := ingredientRow_inj hnd hmem2 hmem hid
    rw [this]

theorem filter_name_eq_singleton :
    ∀ {C : List IngredientRow}, (C.map (fun row => row.name)).Nodup →
      ∀ {r : IngredientRow}, r ∈ C →
        C.filter (fun row => row.name == r.name) = [r] := by
  intro C
  induction C with
  | nil => intro _ r hr; cases hr
  | cons a t ih =>
    intro hnd r hr
    rw [List.map_cons, List.nodup_cons] at hnd
    rcases List.mem_cons.mp hr with h1 | h1
    · subst h1
      rw [List.filter_cons, if_pos (by simp)]
      have : t.filter (fun row => row.name == r.name) = [] := by
        rw [List.filter_eq_nil_iff]
        intro x hx hpx
        exact hnd.1 (List.mem_map.mpr ⟨x, hx, beq_iff_eq.mp hpx⟩)
      rw [this]
    · rw [List.filter_cons, if_neg, ih hnd.2 h1]
      intro hpa
      have : a.name = r.name := beq_iff_eq.mp (by simpa using hpa)
      exact hnd.1 (this ▸ List.mem_map.mpr ⟨r, h1, rfl⟩)

theorem forall₂_mem_exists {α β : Type} {P : α → β → Prop} :
    ∀ {l : List α} {rows : List β}, List.Forall₂ P l rows →
      ∀ {a : α}, a ∈ l → ∃ b, b ∈ rows ∧ P a b := by
  intro l rows hf
  induction hf with
  | nil => intro a ha; cases ha
  | cons hab hrest ihr =>
    intro a ha
    rcases List.mem_cons.mp ha with h1 | h1
    · subst h1
      exact ⟨_, List.mem_cons_self _ _, hab⟩
    · obtain ⟨b, hb, hPb⟩ := ihr h1
      exact ⟨b, List.mem_cons_of_mem _ hb, hPb⟩

theorem forall₂_load_back {dbF : DB} {rid : Nat} :
    ∀ {l : List IngredientQuantity} {rows : List RecipeIngredientRow},
      List.Forall₂ (fun iq row => row.recipe_id = some rid ∧
        decodeIngredientRow dbF row = some iq) l rows →
      (rows.filter (fun row => row.recipe_id == some rid)).filterMap
        (decodeIngredientRow dbF) = l := by
  intro l rows hf
  induction hf with
  | nil => rfl
  | cons hab hrest ihr =>
    rename_i a b l2 rows2
    rw [List.filter_cons, if_pos (by simp [hab.1]), List.filterMap_cons, hab.2, ihr]

theorem filterMap_filter_none {α β : Type} {p : α → Bool} {f : α → Option β}
    (hpf : ∀ a, p a = false → f a = none) :
    ∀ l : List α, (l.filter p).filterMap f = l.filterMap f := by
  intro l
  induction l with
  | nil => rfl
  | cons a t ih =>
    rw [List.filter_cons]
    cases hp : p a with
    | true => rw [if_pos rfl, List.filterMap_cons, List.filterMap_cons, ih]
    | false =>
      rw [if_neg (by simp), List.filterMap_cons, hpf a hp, ih]

/-! Helpers for assembling the claim-level theorems. -/

theorem map_id_of_eq {α : Type} {f : α → α} :
    ∀ {l : List α}, (∀ x ∈ l, f x = x) → l.map f = l := by
  intro l
  induction l with
  | nil => intro _; rfl
  | cons a t ih =>
    intro h
    rw [List.map_cons, h a (List.mem_cons_self a t), ih (fun x hx => h x (List.mem_cons_of_mem a hx))]

theorem steps_decode_back {rid : Nat} :
    ∀ l : List String, ((l.map (fun s => (⟨some rid, some s⟩ : StepRow))).filter
      (fun row => row.recipe_id == some rid)).filterMap (fun row => row.text) = l := by
  intro l
  induction l with
  | nil => rfl
  | cons s t ih =>
    rw [List.map_cons, List.filter_cons, if_pos (by simp), List.filterMap_cons]
    show s :: ((t.map (fun s => (⟨some rid, some s⟩ : StepRow))).filter
      (fun row => row.recipe_id == some rid)).filterMap (fun row => row.text) = s :: t
    rw [ih]

theorem forall₂_decode {dbF : DB} {rid : Nat} (hnd : idsNodup dbF.ingredients) :
    ∀ {l : List IngredientQuantity} {rows : List RecipeIngredientRow},
      List.Forall₂ (fun iq row => row.recipe_id = some rid ∧
        row.quantity = iq.quantity.value ∧ row.unit = iq.quantity.unit ∧
        ∃ iid, row.ingredient_id = some iid ∧
          (⟨iid, iq.ingredient⟩ : IngredientRow) ∈ dbF.ingredients) l rows →
      List.Forall₂ (fun iq row => row.recipe_id = some rid ∧
        decodeIngredientRow dbF row = some iq) l rows := by
  intro l rows hf
  refine hf.imp ?_
  rintro iq row ⟨hr, hq, hu, iid, hig, hmem⟩
  refine ⟨hr, ?_⟩
  unfold decodeIngredientRow
  simp only [hig, lookupIngredientName_of_mem hnd hmem, hq, hu]

theorem add_recipe_ok_elim {db dbA : DB} {r : Recipe}
    (h : add_recipe db r = (.ok (), dbA)) :
    ∃ db2, insertSteps (some (freshRecipeId db))
        { db with recipes := db.recipes ++
          [⟨freshRecipeId db, some r.name, r.desc⟩] } r.steps = .ok db2 ∧
      insertIngredients (some (freshRecipeId db)) db2 r.ingredients = .ok dbA := by
  unfold add_recipe commitOrRollback at h
  cases hb : addRecipeBody db r with
  | error e => rw [hb] at h; simp at h
  | ok d =>
    rw [hb] at h
    simp only [Prod.mk.injEq] at h
    have hd : d = dbA := h.2
    subst hd
    simp only [addRecipeBody] at hb
    cases hs : insertSteps (some (freshRecipeId db))
        { db with recipes := db.recipes ++
          [⟨freshRecipeId db, some r.name, r.desc⟩] } r.steps with
    | error e => rw [hs] at hb; simp at hb
    | ok db2 =>
      rw [hs] at hb
      exact ⟨db2, rfl, hb⟩

theorem insertSteps_fk_fail {i : Nat} {db : DB} (hex : recipeExists db i = false)
    (s : String) (rest : List String) :
    insertSteps (some i) db (s :: rest) = .error .foreignKeyViolation := by
  simp only [insertSteps]
  have hstep : insertStep db (some i) s = .error .foreignKeyViolation := by
    unfold insertStep
    rw [show fkOkRecipe db (some i) = false from hex]
    simp
  rw [hstep]

theorem insertIngredients_fk_fail {i : Nat} {db : DB} (hex : recipeExists db i = false)
    (iq : IngredientQuantity) (rest : List IngredientQuantity) :
    insertIngredients (some i) db (iq :: rest) = .error .foreignKeyViolation := by
  simp only [insertIngredients]
  obtain ⟨hpr, _, _, _, _⟩ := insertIngredientIfAbsent_preserves db iq.ingredient
  have hins : insertRecipeIngredient (insertIngredientIfAbsent db iq.ingredient) (some i)
      iq.ingredient iq.quantity.value iq.quantity.unit = .error .foreignKeyViolation := by
    unfold insertRecipeIngredient
    rw [show fkOkRecipe (insertIngredientIfAbsent db iq.ingredient) (some i) = false from by
      rw [show fkOkRecipe (insertIngredientIfAbsent db iq.ingredient) (some i) =
        recipeExists (insertIngredientIfAbsent db iq.ingredient) i from rfl,
        recipeExists_congr hpr]
      exact hex]
    simp
  rw [hins]

theorem recipeExists_map_of_id {db : DB} {f : RecipeRow → RecipeRow}
    (hf : ∀ row, (f row).id = row.id) (i : Nat) :
    recipeExists { db with recipes := db.recipes.map f } i = recipeExists db i := by
  show (db.recipes.map f).any (fun row => row.id == i) = db.recipes.any (fun row => row.id == i)
  rw [List.any_map]
  refine congrArg _ ?_
  funext row
  show ((f row).id == i) = (row.id == i)
  rw [hf row]

/-! The claims. -/

/-- Claim C5: each of add_recipe, update_recipe and delete_recipe runs all
of its statements in one transaction: an operation either succeeds or
returns an error with the visible state of all four tables exactly as it
was before the call, so no partial multi-table state is ever
observable. -/
theorem c5_transactional_atomicity (db : DB) (r : Recipe) (i : Int) :
    ((add_recipe db r).1 = .ok () ∨ (add_recipe db r).2 = db) ∧
    ((update_recipe db r).1 = .ok () ∨ (update_recipe db r).2 = db) ∧
    ((delete_recipe db i).1 = .ok () ∨ (delete_recipe db i).2 = db) := by
  refine ⟨?_, ?_, Or.inl rfl⟩
  · unfold add_recipe commitOrRollback
    cases addRecipeBody db r with
    | ok d => exact Or.inl rfl
    | error e => exact Or.inr rfl
  · unfold update_recipe commitOrRollback
    cases updateRecipeBody db r with
    | ok d => exact Or.inl rfl
    | error e => exact Or.inr rfl

/-- Claim C6 counterexample: a failure to create the dependent ingredients
table is not tolerated — create_expected_tables unwraps that result, which
aborts the process, contradicting the claim that failures creating any
dependent table are tolerated without aborting. -/
theorem c6_counterexample :
    create_expected_tables (.ok ()) (.ok ()) (.error .primaryKeyConflict) (.ok ()) =
      .aborted ∧
    create_expected_tables (.ok ()) (.ok ()) (.error .primaryKeyConflict) (.ok ()) ≠
      .proceeded :=
  ⟨rfl, by decide⟩

/-- Claim C6 amended: a failure to create the recipes, ingredients or
recipe_ingredients table aborts the process; only a failure to create the
steps table (whose result is bound to an underscore and never inspected)
is tolerated without aborting. -/
theorem c6_amended (e : SqlError) (a b c d : Except SqlError Unit) :
    create_expected_tables (.error e) b c d = .aborted ∧
    create_expected_tables a b (.error e) d = .aborted ∧
    create_expected_tables a b c (.error e) = .aborted ∧
    create_expected_tables (.ok ()) b (.ok ()) (.ok ()) = .proceeded := by
  refine ⟨?_, rfl, ?_, rfl⟩
  · cases c with
    | error e2 => rfl
    | ok u =>
      cases d with
      | error e2 => rfl
      | ok u2 => rfl
  · cases c with
    | error e2 => rfl
    | ok u => rfl

/-- Claim C7 (divergence evidence): SqliteRepo::get_conn unwraps the pool
checkout result, so a failed checkout (for example a timeout) panics and
terminates the process instead of being surfaced to the caller as an error
result. -/
theorem c7_get_conn_panics_on_checkout_failure :
    @get_conn Unit PoolCheckout.err = PanicOr.panicked := rfl

/-- Claim C9: load_recipes always returns Ok, and rows that fail to decode
contribute nothing to the result: deleting every recipes row with a NULL
name, or every recipe_ingredients row whose ingredient reference does not
resolve to a catalog name, leaves the result of load_recipes unchanged. -/
theorem c9_lenient_load (db : DB) :
    (∃ rs, load_recipes db = Except.ok rs) ∧
    load_recipes { db with recipes := decodableRecipes db } = load_recipes db ∧
    load_recipes { db with steps := decodableSteps db } = load_recipes db ∧
    load_recipes { db with recipe_ingredients := decodableRI db } = load_recipes db := by
  refine ⟨⟨db.recipes.filterMap (decodeRecipeRow db), rfl⟩, ?_, ?_, ?_⟩
  · show Except.ok ((db.recipes.filter (fun row => row.name.isSome)).filterMap
      (decodeRecipeRow db)) = Except.ok (db.recipes.filterMap (decodeRecipeRow db))
    refine congrArg Except.ok ?_
    refine filterMap_filter_none ?_ db.recipes
    intro row hrow
    cases hn : row.name with
    | none => simp only [decodeRecipeRow, hn]
    | some nm => rw [hn] at hrow; simp at hrow
  · have hst : ∀ rid : Nat,
        load_steps { db with steps := decodableSteps db } rid = load_steps db rid := by
      intro rid
      show sortStrings (((db.steps.filter (fun row => row.text.isSome)).filter
        (fun row => row.recipe_id == some rid)).filterMap (fun row => row.text)) =
        sortStrings ((db.steps.filter (fun row => row.recipe_id == some rid)).filterMap
          (fun row => row.text))
      refine congrArg sortStrings ?_
      rw [List.filter_comm]
      exact filterMap_filter_none (fun a ha =>
        Option.not_isSome_iff_eq_none.mp (by rw [ha]; exact Bool.false_ne_true)) _
    show Except.ok (db.recipes.filterMap
      (decodeRecipeRow { db with steps := decodableSteps db })) =
      Except.ok (db.recipes.filterMap (decodeRecipeRow db))
    refine congrArg Except.ok (List.filterMap_congr ?_)
    intro row _
    unfold decodeRecipeRow
    cases hn : row.name with
    | none => rfl
    | some nm =>
      rw [show load_steps { db with steps := decodableSteps db } row.id =
        load_steps db row.id from hst row.id]
      rfl
  · have hing : ∀ rid : Nat,
        load_ingredients { db with recipe_ingredients := decodableRI db } rid =
          load_ingredients db rid := by
      intro rid
      show ((db.recipe_ingredients.filter (fun row => (decodeIngredientRow db row).isSome)).filter
        (fun row => row.recipe_id == some rid)).filterMap (decodeIngredientRow db) =
        (db.recipe_ingredients.filter (fun row => row.recipe_id == some rid)).filterMap
          (decodeIngredientRow db)
      rw [List.filter_comm]
      exact filterMap_filter_none (fun a ha =>
        Option.not_isSome_iff_eq_none.mp (by rw [ha]; exact Bool.false_ne_true)) _
    show Except.ok (db.recipes.filterMap
      (decodeRecipeRow { db with recipe_ingredients := decodableRI db })) =
      Except.ok (db.recipes.filterMap (decodeRecipeRow db))
    refine congrArg Except.ok (List.filterMap_congr ?_)
    intro row _
    unfold decodeRecipeRow
    cases hn : row.name with
    | none => rfl
    | some nm =>
      rw [show load_ingredients { db with recipe_ingredients := decodableRI db } row.id =
        load_ingredients db row.id from hing row.id]
      rfl

/-- Claim C10: every recipe returned by load_recipes has a present id,
because each is decoded from a recipes row whose primary-key id column is
read into the id field. -/
theorem c10_loaded_id_present (db : DB) (rs : List Recipe) (r : Recipe)
    (hload : load_recipes db = .ok rs) (hmem : r ∈ rs) : ∃ i, r.id = some i := by
  unfold load_recipes at hload
  simp only [Except.ok.injEq] at hload
  subst hload
  obtain ⟨row, hrow, hdec⟩ := List.mem_filterMap.mp hmem
  unfold decodeRecipeRow at hdec
  cases hn : row.name with
  | none => rw [hn] at hdec; simp at hdec
  | some nm =>
    rw [hn] at hdec
    simp only [Option.some.injEq] at hdec
    exact ⟨row.id, by rw [← hdec]⟩

/-- Witness for C10 at a concrete store with one decodable row. -/
theorem c10_witness :
    load_recipes (⟨[⟨1, some "a", none⟩], [], [], []⟩ : DB) =
      .ok [⟨some 1, "a", none, [], []⟩] ∧
    (∃ i, (⟨some 1, "a", none, [], []⟩ : Recipe).id = some i) :=
  ⟨by decide, c10_loaded_id_present ⟨[⟨1, some "a", none⟩], [], [], []⟩
    [⟨some 1, "a", none, [], []⟩] ⟨some 1, "a", none, [], []⟩ (by decide) (by decide)⟩

theorem fkConsistent_steps {db : DB} (h : fkConsistent db = true) :
    ∀ row ∈ db.steps, fkOkRecipe db row.recipe_id = true := by
  unfold fkConsistent at h
  rw [Bool.and_eq_true] at h
  exact fun row hrow => List.all_eq_true.mp h.1 row hrow

theorem fkConsistent_ri {db : DB} (h : fkConsistent db = true) :
    ∀ row ∈ db.recipe_ingredients, fkOkRecipe db row.recipe_id = true := by
  unfold fkConsistent at h
  rw [Bool.and_eq_true] at h
  intro row hrow
  have := List.all_eq_true.mp h.2 row hrow
  rw [Bool.and_eq_true] at this
  exact this.1

/-- Claim C4: delete_recipe always succeeds, and on a foreign-key
consistent store (which the engine enforces) the cascade leaves no steps
row and no recipe_ingredients row referencing the deleted id. -/
theorem c4_cascade_delete (db : DB) (rid : Int) (hfk : fkConsistent db = true) :
    (delete_recipe db rid).1 = .ok () ∧
    ∀ i : Nat, (i : Int) = rid →
      (∀ row ∈ (delete_recipe db rid).2.steps, row.recipe_id ≠ some i) ∧
      (∀ row ∈ (delete_recipe db rid).2.recipe_ingredients, row.recipe_id ≠ some i) := by
  refine ⟨rfl, ?_⟩
  intro i hi
  constructor
  · intro row hrow hcontra
    have hrow2 : row ∈ db.steps.filter (fun row =>
        !((db.recipes.filter (fun d => (d.id : Int) == rid)).any
          (fun d => row.recipe_id == some d.id))) := hrow
    obtain ⟨hmem, hpred⟩ := List.mem_filter.mp hrow2
    have hfkrow := fkConsistent_steps hfk row hmem
    rw [hcontra] at hfkrow
    obtain ⟨rrow, hrmem, hrid⟩ := List.any_eq_true.mp hfkrow
    have hridq : rrow.id = i := beq_iff_eq.mp hrid
    rw [Bool.not_eq_true', List.any_eq_false] at hpred
    refine hpred rrow (List.mem_filter.mpr ⟨hrmem, by rw [hridq, hi]; simp⟩) ?_
    rw [hcontra, hridq]
    simp
  · intro row hrow hcontra
    have hrow2 : row ∈ db.recipe_ingredients.filter (fun row =>
        !((db.recipes.filter (fun d => (d.id : Int) == rid)).any
          (fun d => row.recipe_id == some d.id))) := hrow
    obtain ⟨hmem, hpred⟩ := List.mem_filter.mp hrow2
    have hfkrow := fkConsistent_ri hfk row hmem
    rw [hcontra] at hfkrow
    obtain ⟨rrow, hrmem, hrid⟩ := List.any_eq_true.mp hfkrow
    have hridq : rrow.id = i := beq_iff_eq.mp hrid
    rw [Bool.not_eq_true', List.any_eq_false] at hpred
    refine hpred rrow (List.mem_filter.mpr ⟨hrmem, by rw [hridq, hi]; simp⟩) ?_
    rw [hcontra, hridq]
    simp

/-- Witness for C4 at a store holding one recipe with a step and an
ingredient-quantity row: after delete_recipe 1, the old step row referencing
recipe 1 is gone. -/
theorem c4_witness :
    fkConsistent ⟨[⟨1, some "a", none⟩], [⟨some 1, some "s"⟩], [⟨1, "P"⟩],
      [⟨some 1, some 1, some 2, some "u"⟩]⟩ = true ∧
    (delete_recipe ⟨[⟨1, some "a", none⟩], [⟨some 1, some "s"⟩], [⟨1, "P"⟩],
      [⟨some 1, some 1, some 2, some "u"⟩]⟩ 1).1 = .ok () ∧
    ¬ ((⟨some 1, some "s"⟩ : StepRow) ∈ (delete_recipe ⟨[⟨1, some "a", none⟩],
      [⟨some 1, some "s"⟩], [⟨1, "P"⟩],
      [⟨some 1, some 1, some 2, some "u"⟩]⟩ 1).2.steps) :=
  ⟨by decide,
    (c4_cascade_delete ⟨[⟨1, some "a", none⟩], [⟨some 1, some "s"⟩], [⟨1, "P"⟩],
      [⟨some 1, some 1, some 2, some "u"⟩]⟩ 1 (by decide)).1,
    fun hmem => ((c4_cascade_delete ⟨[⟨1, some "a", none⟩], [⟨some 1, some "s"⟩],
      [⟨1, "P"⟩], [⟨some 1, some 1, some 2, some "u"⟩]⟩ 1 (by decide)).2 1 rfl).1
      ⟨some 1, some "s"⟩ hmem rfl⟩

/-- Claim C8: an input recipe with two identical step texts, or two
ingredient entries with the same name, always makes add_recipe fail with a
primary-key (write-conflict) error, leaving the store unchanged. -/
theorem c8_duplicate_rows_conflict (db : DB) (r : Recipe)
    (h : ¬ r.steps.Nodup ∨ ¬ (r.ingredients.map (fun iq => iq.ingredient)).Nodup) :
    (add_recipe db r).1 = .error .primaryKeyConflict ∧ (add_recipe db r).2 = db := by
  have hbody : addRecipeBody db r = .error .primaryKeyConflict := by
    simp only [addRecipeBody]
    have hex1 : recipeExists { db with recipes := db.recipes ++
        [⟨freshRecipeId db, some r.name, r.desc⟩] } (freshRecipeId db) = true := by
      simp [recipeExists, List.any_append]
    cases hs : insertSteps (some (freshRecipeId db)) { db with recipes := db.recipes ++
        [⟨freshRecipeId db, some r.name, r.desc⟩] } r.steps with
    | error e =>
      have he := insertSteps_err_kind hex1 hs
      subst he
      rfl
    | ok db2 =>
      have hnd1 := insertSteps_ok_nodup hs
      rcases h with hdup | hdup
      · exact absurd hnd1 hdup
      · have hex2 : recipeExists db2 (freshRecipeId db) = true := by
          obtain ⟨hr2, _, _, _⟩ := insertSteps_preserves hs
          rw [recipeExists_congr hr2]
          exact hex1
        cases hing : insertIngredients (some (freshRecipeId db)) db2 r.ingredients with
        | error e =>
          have he := insertIngredients_err_kind hex2 hing
          subst he
          exact hing
        | ok db3 => exact absurd (insertIngredients_ok_nodup hing) hdup
  constructor
  · show (commitOrRollback db (addRecipeBody db r)).1 = _
    rw [hbody]
    rfl
  · show (commitOrRollback db (addRecipeBody db r)).2 = _
    rw [hbody]
    rfl

/-- Witness for C8: adding a recipe with the duplicated step text "a" to
the fresh store fails with a primary-key conflict and changes nothing. -/
theorem c8_witness :
    ¬ (["a", "a"] : List String).Nodup ∧
    (add_recipe emptyDB ⟨none, "r", none, ["a", "a"], []⟩).1 =
      .error .primaryKeyConflict ∧
    (add_recipe emptyDB ⟨none, "r", none, ["a", "a"], []⟩).2 = emptyDB :=
  ⟨by decide,
    (c8_duplicate_rows_conflict emptyDB ⟨none, "r", none, ["a", "a"], []⟩
      (Or.inl (by decide))).1,
    (c8_duplicate_rows_conflict emptyDB ⟨none, "r", none, ["a", "a"], []⟩
      (Or.inl (by decide))).2⟩

/-- Claim C2 counterexample: on the empty store, updating a recipe with
id 999 and the nonempty steps list ["s"] does not succeed: the re-inserted
steps row references the missing recipes row 999, so the enforced foreign
key fails and the operation returns an error (with the store rolled
back). -/
theorem c2_counterexample :
    update_recipe emptyDB ⟨some 999, "x", none, ["s"], []⟩ =
      (.error .foreignKeyViolation, emptyDB) ∧
    (update_recipe emptyDB ⟨some 999, "x", none, ["s"], []⟩).1 ≠ .ok () :=
  ⟨by decide, by decide⟩

/-- Claim C2 amended: on a foreign-key consistent store containing no
recipe with the given id, delete_recipe succeeds and changes nothing;
update_recipe of a recipe with that id succeeds and changes nothing when
its steps and ingredients lists are both empty, and otherwise fails with a
foreign-key error, leaving the store unchanged. -/
theorem c2_amended (db : DB) (i : Nat) (r : Recipe)
    (hfk : fkConsistent db = true) (hex : recipeExists db i = false)
    (hid : r.id = some i) :
    delete_recipe db (i : Int) = (.ok (), db) ∧
    (r.steps = [] → r.ingredients = [] → update_recipe db r = (.ok (), db)) ∧
    ((r.steps ≠ [] ∨ r.ingredients ≠ []) →
      (update_recipe db r).1 = .error .foreignKeyViolation ∧
        (update_recipe db r).2 = db) := by
  have hexf : ∀ row ∈ db.recipes, ¬ ((row.id == i) = true) :=
    List.any_eq_false.mp (by exact hex)
  have hbeq : ∀ j : Nat, ((j : Int) == (i : Int)) = true → j = i := by
    intro j hj
    exact_mod_cast beq_iff_eq.mp hj
  have hdel0 : db.recipes.filter (fun row => ((row.id : Int) == (i : Int))) = [] := by
    rw [List.filter_eq_nil_iff]
    intro row hrow hc
    exact hexf row hrow (by rw [hbeq row.id hc]; simp)
  have hkeep : db.recipes.filter (fun row => !((row.id : Int) == (i : Int))) = db.recipes := by
    rw [List.filter_eq_self]
    intro row hrow
    rw [Bool.not_eq_true']
    by_contra hc
    rw [Bool.not_eq_false] at hc
    exact hexf row hrow (by rw [hbeq row.id hc]; simp)
  have hmap : db.recipes.map (fun row => if sqlEq (some row.id) (some i) then
      { row with name := some r.name, desc := r.desc } else row) = db.recipes := by
    refine map_id_of_eq ?_
    intro row hrow
    rw [sqlEq_some_some, show (row.id == i) = false from by
      by_contra hc
      rw [Bool.not_eq_false] at hc
      exact hexf row hrow hc]
    rfl
  have hstepsf : db.steps.filter (fun row => !(sqlEq row.recipe_id (some i))) = db.steps := by
    rw [List.filter_eq_self]
    intro row hrow
    rw [Bool.not_eq_true']
    cases hrec : row.recipe_id with
    | none => rfl
    | some j =>
      rw [sqlEq_some_some]
      by_contra hc
      rw [Bool.not_eq_false] at hc
      have hj : j = i := beq_iff_eq.mp hc
      have := fkConsistent_steps hfk row hrow
      rw [hrec] at this
      subst hj
      rw [show fkOkRecipe db (some j) = recipeExists db j from rfl, hex] at this
      cases this
  have hrif : db.recipe_ingredients.filter (fun row => !(sqlEq row.recipe_id (some i))) =
      db.recipe_ingredients := by
    rw [List.filter_eq_self]
    intro row hrow
    rw [Bool.not_eq_true']
    cases hrec : row.recipe_id with
    | none => rfl
    | some j =>
      rw [sqlEq_some_some]
      by_contra hc
      rw [Bool.not_eq_false] at hc
      have hj : j = i := beq_iff_eq.mp hc
      have := fkConsistent_ri hfk row hrow
      rw [hrec] at this
      subst hj
      rw [show fkOkRecipe db (some j) = recipeExists db j from rfl, hex] at this
      cases this
  refine ⟨?_, ?_, ?_⟩
  · simp only [delete_recipe, hdel0, hkeep, List.any_nil, Bool.not_false, List.filter_true]
  · intro hst hin
    have hbody : updateRecipeBody db r = .ok db := by
      simp only [updateRecipeBody, hid, hst, hin, hmap, hstepsf, hrif, insertSteps,
        insertIngredients]
    show commitOrRollback db (updateRecipeBody db r) = _
    rw [hbody]
    rfl
  · intro hne
    have hbody : updateRecipeBody db r = .error .foreignKeyViolation := by
      cases hst : r.steps with
      | cons s rest =>
        simp only [updateRecipeBody, hid, hst, hmap, hstepsf]
        rw [insertSteps_fk_fail hex s rest]
      | nil =>
        cases hin : r.ingredients with
        | nil =>
          exfalso
          rcases hne with hne | hne
          · exact hne hst
          · exact hne hin
        | cons iq rest =>
          simp only [updateRecipeBody, hid, hst, hin, hmap, hstepsf, hrif, insertSteps]
          rw [insertIngredients_fk_fail hex iq rest]
    constructor
    · show (commitOrRollback db (updateRecipeBody db r)).1 = _
      rw [hbody]
      rfl
    · show (commitOrRollback db (updateRecipeBody db r)).2 = _
      rw [hbody]
      rfl

/-- Witness for C2 (amended) at the empty store with id 999: delete is a
successful no-op and the empty-lists update is a successful no-op. -/
theorem c2_amended_witness :
    fkConsistent emptyDB = true ∧ recipeExists emptyDB 999 = false ∧
    delete_recipe emptyDB (999 : Int) = (.ok (), emptyDB) ∧
    update_recipe emptyDB ⟨some 999, "n", none, [], []⟩ = (.ok (), emptyDB) :=
  ⟨by decide, by decide,
    (c2_amended emptyDB 999 ⟨some 999, "n", none, [], []⟩ (by decide) (by decide) rfl).1,
    (c2_amended emptyDB 999 ⟨some 999, "n", none, [], []⟩ (by decide) (by decide) rfl).2.1
      rfl rfl⟩

theorem update_recipe_ok_elim {db dbB : DB} {r : Recipe}
    (h : update_recipe db r = (.ok (), dbB)) :
    ∃ db2 db3, insertSteps r.id db2 r.steps = .ok db3 ∧
      insertIngredients r.id { db3 with recipe_ingredients := db3.recipe_ingredients.filter (fun row => !(sqlEq row.recipe_id r.id)) } r.ingredients = .ok dbB ∧
      db2.ingredients = db.ingredients ∧
      db2.recipe_ingredients = db.recipe_ingredients := by
  unfold update_recipe commitOrRollback at h
  cases hb : updateRecipeBody db r with
  | error e => rw [hb] at h; simp at h
  | ok d =>
    rw [hb] at h
    simp only [Prod.mk.injEq] at h
    have hd : d = dbB := h.2
    subst hd
    simp only [updateRecipeBody] at hb
    cases hs : insertSteps r.id { db with recipes := db.recipes.map (fun row => if sqlEq (some row.id) r.id then { row with name := some r.name, desc := r.desc } else row), steps := db.steps.filter (fun row => !(sqlEq row.recipe_id r.id)) } r.steps with
    | error e => rw [hs] at hb; simp at hb
    | ok db3 =>
      rw [hs] at hb
      exact ⟨_, db3, hs, hb, rfl, rfl⟩

theorem write_ok_facts {db dbB : DB} {r : Recipe} {b : Bool}
    (h : writeRecipe db r b = (.ok (), dbB)) :
    (∃ ext, dbB.ingredients = db.ingredients ++ ext) ∧
    (namesNodup db.ingredients → namesNodup dbB.ingredients) ∧
    (∀ row ∈ db.recipe_ingredients,
      (b = true → sqlEq row.recipe_id r.id = false) → row ∈ dbB.recipe_ingredients) ∧
    (∀ X ∈ r.ingredients.map (fun iq => iq.ingredient),
      ∃ row, row ∈ dbB.recipe_ingredients ∧ row.recipe_id = writtenRecipeId db r b ∧
        ∃ iid, row.ingredient_id = some iid ∧
          (⟨iid, X⟩ : IngredientRow) ∈ dbB.ingredients) := by
  cases b with
  | false =>
    have hadd : add_recipe db r = (.ok (), dbB) := h
    obtain ⟨db2, hs, hi⟩ := add_recipe_ok_elim hadd
    obtain ⟨hr2, hig2, hri2, ext2, hst2⟩ := insertSteps_preserves hs
    obtain ⟨hrB, hsB, ⟨extB, heB⟩, hidsB, hnamesB, rows, hriB, hfB⟩ :=
      insertIngredients_ok_spec hi
    have hig2q : db2.ingredients = db.ingredients := hig2
    have hri2q : db2.recipe_ingredients = db.recipe_ingredients := hri2
    refine ⟨⟨extB, by rw [heB, hig2q]⟩, ?_, ?_, ?_⟩
    · intro hnd
      exact hnamesB (by rw [hig2q]; exact hnd)
    · intro row hrow _
      rw [hriB, hri2q]
      exact List.mem_append_left _ hrow
    · intro X hX
      obtain ⟨iq, hiqmem, hiqX⟩ := List.mem_map.mp hX
      obtain ⟨row, hrowmem, hP⟩ := forall₂_mem_exists hfB hiqmem
      obtain ⟨hrid, hq, hu, iid, hiid, hmem⟩ := hP
      refine ⟨row, ?_, hrid, iid, hiid, ?_⟩
      · rw [hriB]
        exact List.mem_append_right _ hrowmem
      · rw [← hiqX]
        exact hmem
  | true =>
    have hupd : update_recipe db r = (.ok (), dbB) := h
    obtain ⟨db2, db3, hs, hi, hig2, hri2⟩ := update_recipe_ok_elim hupd
    obtain ⟨hr3, hig3, hri3, ext3, hst3⟩ := insertSteps_preserves hs
    obtain ⟨hrB, hsB, ⟨extB, heB⟩, hidsB, hnamesB, rows, hriB, hfB⟩ :=
      insertIngredients_ok_spec hi
    have heBq : dbB.ingredients = db3.ingredients ++ extB := heB
    have hriBq : dbB.recipe_ingredients =
        db3.recipe_ingredients.filter (fun row => !(sqlEq row.recipe_id r.id)) ++ rows :=
      hriB
    have hri3q : db3.recipe_ingredients = db2.recipe_ingredients := hri3
    refine ⟨⟨extB, by rw [heBq, show db3.ingredients = db2.ingredients from hig3, hig2]⟩,
      ?_, ?_, ?_⟩
    · intro hnd
      refine hnamesB (show namesNodup db3.ingredients from ?_)
      rw [show db3.ingredients = db2.ingredients from hig3, hig2]
      exact hnd
    · intro row hrow hcond
      have hc : sqlEq row.recipe_id r.id = false := hcond rfl
      have hrow3 : row ∈ db3.recipe_ingredients := by
        rw [hri3q, hri2]
        exact hrow
      rw [hriBq]
      refine List.mem_append_left _ (List.mem_filter.mpr ⟨hrow3, ?_⟩)
      rw [hc]
      rfl
    · intro X hX
      obtain ⟨iq, hiqmem, hiqX⟩ := List.mem_map.mp hX
      obtain ⟨row, hrowmem, hP⟩ := forall₂_mem_exists hfB hiqmem
      obtain ⟨hrid, hq, hu, iid, hiid, hmem⟩ := hP
      refine ⟨row, ?_, hrid, iid, hiid, ?_⟩
      · rw [hriBq]
        exact List.mem_append_right _ hrowmem
      · rw [← hiqX]
        exact hmem

/-- Claim C3: after two successful writes that each reference the
ingredient name X — each write an add, or an update addressing a recipe id
distinct from the first write's id — on a store whose catalog satisfies
its UNIQUE-name constraint, the catalog contains exactly one row named X,
and both writes leave a join row referencing that single row's id. -/
theorem c3_ingredient_dedup (db dbA dbB : DB) (r1 r2 : Recipe) (X : String) (b1 b2 : Bool)
    (hnames : namesNodup db.ingredients)
    (h1 : writeRecipe db r1 b1 = (.ok (), dbA))
    (h2 : writeRecipe dbA r2 b2 = (.ok (), dbB))
    (hdistinct : b2 = true → sqlEq (writtenRecipeId db r1 b1) r2.id = false)
    (hX1 : X ∈ r1.ingredients.map (fun iq => iq.ingredient))
    (hX2 : X ∈ r2.ingredients.map (fun iq => iq.ingredient)) :
    ∃ iid, dbB.ingredients.filter (fun row => row.name == X) = [⟨iid, X⟩] ∧
      (∃ rowA, rowA ∈ dbB.recipe_ingredients ∧
        rowA.recipe_id = writtenRecipeId db r1 b1 ∧ rowA.ingredient_id = some iid) ∧
      (∃ rowB, rowB ∈ dbB.recipe_ingredients ∧
        rowB.recipe_id = writtenRecipeId dbA r2 b2 ∧ rowB.ingredient_id = some iid) := by
  obtain ⟨⟨extA, hcatA⟩, hnpA, hsurvA, hXA⟩ := write_ok_facts h1
  obtain ⟨⟨extB, hcatB⟩, hnpB, hsurvB, hXB⟩ := write_ok_facts h2
  have hnamesA := hnpA hnames
  have hnamesB := hnpB hnamesA
  obtain ⟨rowA, hrowAmem, hArid, iidA, hAiid, hAmem⟩ := hXA X hX1
  obtain ⟨rowB, hrowBmem, hBrid, iidB, hBiid, hBmem⟩ := hXB X hX2
  have hrowAinB : rowA ∈ dbB.recipe_ingredients := by
    refine hsurvB rowA hrowAmem ?_
    intro hb2
    rw [hArid]
    exact hdistinct hb2
  have hAmemB : (⟨iidA, X⟩ : IngredientRow) ∈ dbB.ingredients := by
    rw [hcatB]
    exact List.mem_append_left _ hAmem
  have hrows : (⟨iidA, X⟩ : IngredientRow) = ⟨iidB, X⟩ :=
    List.inj_on_of_nodup_map hnamesB hAmemB hBmem rfl
  have hiidAB : iidA = iidB := by cases hrows; rfl
  exact ⟨iidA, filter_name_eq_singleton hnamesB hAmemB,
    ⟨rowA, hrowAinB, hArid, hAiid⟩,
    ⟨rowB, hrowBmem, hBrid, by rw [hBiid, hiidAB]⟩⟩

/-- Witness for C3 exercising both write paths: on a store already holding
the scenario recipe as recipe 1, a second add of the same recipe followed
by an update of recipe 1 (both referencing "Potato") leave exactly one
"Potato" catalog row, referenced by both writes. -/
theorem c3_witness :
    namesNodup (add_recipe emptyDB testRecipe).2.ingredients ∧
    writeRecipe (add_recipe emptyDB testRecipe).2 testRecipe false =
      (.ok (), (writeRecipe (add_recipe emptyDB testRecipe).2 testRecipe false).2) ∧
    writeRecipe (writeRecipe (add_recipe emptyDB testRecipe).2 testRecipe false).2
      { testRecipe with id := some 1 } true =
      (.ok (), (writeRecipe (writeRecipe (add_recipe emptyDB testRecipe).2 testRecipe
        false).2 { testRecipe with id := some 1 } true).2) ∧
    (∃ iid, (writeRecipe (writeRecipe (add_recipe emptyDB testRecipe).2 testRecipe
        false).2 { testRecipe with id := some 1 } true).2.ingredients.filter
        (fun row => row.name == "Potato") = [⟨iid, "Potato"⟩] ∧
      (∃ rowA, rowA ∈ (writeRecipe (writeRecipe (add_recipe emptyDB testRecipe).2
          testRecipe false).2 { testRecipe with id := some 1 } true).2.recipe_ingredients ∧
        rowA.recipe_id = writtenRecipeId (add_recipe emptyDB testRecipe).2 testRecipe
          false ∧ rowA.ingredient_id = some iid) ∧
      (∃ rowB, rowB ∈ (writeRecipe (writeRecipe (add_recipe emptyDB testRecipe).2
          testRecipe false).2 { testRecipe with id := some 1 } true).2.recipe_ingredients ∧
        rowB.recipe_id = writtenRecipeId (writeRecipe (add_recipe emptyDB testRecipe).2
          testRecipe false).2 { testRecipe with id := some 1 } true ∧
        rowB.ingredient_id = some iid)) :=
  ⟨by decide, by decide, by decide,
    c3_ingredient_dedup (add_recipe emptyDB testRecipe).2
      (writeRecipe (add_recipe emptyDB testRecipe).2 testRecipe false).2
      (writeRecipe (writeRecipe (add_recipe emptyDB testRecipe).2 testRecipe false).2
        { testRecipe with id := some 1 } true).2
      testRecipe { testRecipe with id := some 1 } "Potato" false true
      (by decide) (by decide) (by decide) (by decide) (by decide) (by decide)⟩

theorem insertSorted_perm (s : String) :
    ∀ l : List String, (insertSorted s l).Perm (s :: l) := by
  intro l
  induction l with
  | nil => exact List.Perm.refl _
  | cons t rest ih =>
    unfold insertSorted
    split
    · exact List.Perm.refl _
    · exact (ih.cons t).trans (List.Perm.swap s t rest)

theorem sortStrings_perm : ∀ l : List String, (sortStrings l).Perm l := by
  intro l
  induction l with
  | nil => exact List.Perm.refl _
  | cons s rest ih => exact (insertSorted_perm s (sortStrings rest)).trans (ih.cons s)

/-- Claim C1 counterexample: the loaded steps come back in the text-sorted
order of the composite-index scan, not in the input order, so for the
input steps ["b", "a"] the single loaded entry has steps ["a", "b"] and is
not equal to the input in every field. -/
theorem c1_counterexample :
    (add_recipe emptyDB ⟨none, "r", none, ["b", "a"], []⟩).1 = .ok () ∧
    load_recipes (add_recipe emptyDB ⟨none, "r", none, ["b", "a"], []⟩).2 =
      .ok [⟨some 1, "r", none, ["a", "b"], []⟩] ∧
    load_recipes (add_recipe emptyDB ⟨none, "r", none, ["b", "a"], []⟩).2 ≠
      .ok [⟨some 1, "r", none, ["b", "a"], []⟩] :=
  ⟨by decide, by decide, by decide⟩

/-- Claim C1 amended: adding a valid recipe (no duplicate step texts, no
duplicate ingredient names) to the fresh store succeeds, and load_recipes
then returns exactly one entry equal to the input in name, desc and
ingredients, with the storage-assigned id 1 (the input id field ignored),
and with the same steps up to reordering: they are read back in the
text-sorted order of the composite-index scan, a permutation of the
input's steps. -/
theorem c1_roundtrip (r : Recipe) (hsteps : r.steps.Nodup)
    (hings : (r.ingredients.map (fun iq => iq.ingredient)).Nodup) :
    (add_recipe emptyDB r).1 = .ok () ∧
    load_recipes (add_recipe emptyDB r).2 =
      .ok [{ r with id := some 1, steps := sortStrings r.steps }] ∧
    (sortStrings r.steps).Perm r.steps := by
  have hex1 : recipeExists (⟨[⟨1, some r.name, r.desc⟩], [], [], []⟩ : DB) 1 = true := by
    simp [recipeExists]
  have hstepsrun : insertSteps (some 1) (⟨[⟨1, some r.name, r.desc⟩], [], [], []⟩ : DB)
      r.steps = .ok ⟨[⟨1, some r.name, r.desc⟩],
        r.steps.map (fun s => ⟨some 1, some s⟩), [], []⟩ :=
    @insertSteps_spec 1 r.steps (⟨[⟨1, some r.name, r.desc⟩], [], [], []⟩ : DB) hex1
      (fun s _ => rfl) hsteps
  have hH : ∀ row ∈ (⟨[⟨1, some r.name, r.desc⟩],
      r.steps.map (fun s => ⟨some 1, some s⟩), [], []⟩ : DB).recipe_ingredients,
      sqlEq row.recipe_id (some 1) = true →
      ∃ iid nm, row.ingredient_id = some iid ∧
        lookupIngredientId (⟨[⟨1, some r.name, r.desc⟩],
          r.steps.map (fun s => ⟨some 1, some s⟩), [], []⟩ : DB) nm = some iid ∧
        nm ∉ r.ingredients.map (fun iq => iq.ingredient) := by
    intro row hrow
    cases hrow
  obtain ⟨dbF, hingrun⟩ := @insertIngredients_ok_of_nodup 1 r.ingredients
    (⟨[⟨1, some r.name, r.desc⟩], r.steps.map (fun s => ⟨some 1, some s⟩), [], []⟩ : DB)
    (by simp [recipeExists]) List.nodup_nil hings hH
  have hbody : addRecipeBody emptyDB r = .ok dbF := by
    simp only [addRecipeBody]
    rw [show insertSteps (some (freshRecipeId emptyDB)) { emptyDB with recipes :=
        emptyDB.recipes ++ [⟨freshRecipeId emptyDB, some r.name, r.desc⟩] } r.steps =
      .ok (⟨[⟨1, some r.name, r.desc⟩], r.steps.map (fun s => ⟨some 1, some s⟩),
        [], []⟩ : DB) from hstepsrun]
    exact hingrun
  have hadd : add_recipe emptyDB r = (.ok (), dbF) := by
    show commitOrRollback emptyDB (addRecipeBody emptyDB r) = _
    rw [hbody]
    rfl
  obtain ⟨hrF, hsF, ⟨ext, heF⟩, hndF, _, rows, hriF, hfF⟩ :=
    insertIngredients_ok_spec hingrun
  have hrFq : dbF.recipes = [⟨1, some r.name, r.desc⟩] := hrF
  have hsFq : dbF.steps = r.steps.map (fun s => ⟨some 1, some s⟩) := hsF
  have hriFq : dbF.recipe_ingredients = rows := hriF
  have hndFq : idsNodup dbF.ingredients := hndF List.nodup_nil
  have hdecode : decodeRecipeRow dbF ⟨1, some r.name, r.desc⟩ =
      some { r with id := some 1, steps := sortStrings r.steps } := by
    have hls : load_steps dbF 1 = sortStrings r.steps := by
      unfold load_steps
      rw [hsFq]
      exact congrArg sortStrings (steps_decode_back r.steps)
    have hli : load_ingredients dbF 1 = r.ingredients := by
      unfold load_ingredients
      rw [hriFq]
      exact forall₂_load_back (forall₂_decode hndFq hfF)
    show (some (Recipe.mk (some 1) r.name r.desc (load_steps dbF 1)
      (load_ingredients dbF 1)) : Option Recipe) =
      some { r with id := some 1, steps := sortStrings r.steps }
    rw [hls, hli]
  refine ⟨by rw [hadd], ?_, sortStrings_perm r.steps⟩
  rw [hadd]
  show load_recipes dbF = _
  unfold load_recipes
  rw [hrFq]
  simp only [List.filterMap_cons, List.filterMap_nil, hdecode]

/-- Witness for C1 (amended) at the scenario recipe with a bogus input id
42: it loads back as the single entry with id 1 and its single step. -/
theorem c1_witness :
    (["Step 1"] : List String).Nodup ∧
    (((⟨some 42, "Test Recipe", some "Test Description", ["Step 1"],
      [⟨"Potato", ⟨1, "whole"⟩⟩]⟩ : Recipe).ingredients.map
        (fun iq => iq.ingredient)).Nodup) ∧
    (add_recipe emptyDB ⟨some 42, "Test Recipe", some "Test Description", ["Step 1"],
      [⟨"Potato", ⟨1, "whole"⟩⟩]⟩).1 = .ok () ∧
    load_recipes (add_recipe emptyDB ⟨some 42, "Test Recipe", some "Test Description",
      ["Step 1"], [⟨"Potato", ⟨1, "whole"⟩⟩]⟩).2 =
      .ok [⟨some 1, "Test Recipe", some "Test Description", sortStrings ["Step 1"],
        [⟨"Potato", ⟨1, "whole"⟩⟩]⟩] ∧
    (sortStrings ["Step 1"]).Perm ["Step 1"] :=
  ⟨by decide, by decide,
    (c1_roundtrip ⟨some 42, "Test Recipe", some "Test Description", ["Step 1"],
      [⟨"Potato", ⟨1, "whole"⟩⟩]⟩ (by decide) (by decide)).1,
    (c1_roundtrip ⟨some 42, "Test Recipe", some "Test Description", ["Step 1"],
      [⟨"Potato", ⟨1, "whole"⟩⟩]⟩ (by decide) (by decide)).2.1,
    (c1_roundtrip ⟨some 42, "Test Recipe", some "Test Description", ["Step 1"],
      [⟨"Potato", ⟨1, "whole"⟩⟩]⟩ (by decide) (by decide)).2.2⟩

end RecipeBook
